import Mathlib

/-!
Shallow embedding of the Simple Command Parser library
(simple_command_parser.c / simple_command_parser.h) and proofs about its
specification.

The embedding models:
  - the command registry (a singly linked list of command descriptors,
    here a `List Command` in head-to-tail order; the `size` field of the
    C `list_t` mirrors the list length and is never read, so it is omitted),
  - `scp_init`, `scp_add_command` (with the C `assert` contract modelled as
    an `Except` fault, and `strlen(NULL)` modelled as undefined behaviour),
  - `find_command` (linear search matching the full name or the optional
    abbreviation with `strcmp`),
  - the keyboard reader `input` (modelled as a write log over byte offsets
    of `in_buffer`, so that out-of-bounds writes are observable),
  - one iteration of the `scp_parse` dispatch loop (`dispatchLine`) and the
    loop itself over a finite supply of lines (`runLines`).

C `int` values are modelled as `Int`; buffer offsets and lengths as `Nat`.
NULL-able C strings are `Option String`.
-/

namespace SCP

/-- Maximum command string length including the terminating 0 (header). -/
def MAX_CMD_STR : Nat := 11

/-- Maximum abbreviation string length including the terminating 0 (header). -/
def MAX_ABBR_STR : Nat := 5

/-- Maximum help string length including the terminating 0 (header). -/
def MAX_HELP_STR : Nat := 41

/-- Maximum size of the input command string. -/
def MAX_INPUT_BUFFER : Nat := 128

/-- Maximum number of arguments a command can have. -/
def MAX_ARGC : Nat := 6

/-- A command handler (`cmd_func_t`).  The two built-in handlers
`help_cmd_func` and `end_cmd_func` are distinguished constructors because
`end_cmd_func` is the only function in the program that writes the static
`end_parsing` flag (it is `static`, so no externally registered handler can
reach it); every externally supplied handler is a pure `user` function from
the collected argv tokens to its `int` result. -/
inductive CmdFunc where
  | helpFn : CmdFunc
  | endFn : CmdFunc
  | user (f : List String → Int) : CmdFunc

/-- A command descriptor (`struct _command_t`).  The `next` pointer of the C
struct is represented by the position in the registry list. -/
structure Command where
  cmd_str : String
  abbr_str : Option String
  help_str : String
  min_arg : Int
  max_arg : Int
  func : CmdFunc

/-- A C-level fault: a failed `assert`, or undefined behaviour such as
`strlen(NULL)` or `strcmp(NULL, s)`. -/
inductive CFault where
  | assertFail (msg : String) : CFault
  | undefinedBehavior (msg : String) : CFault

/-- The C `assert` macro: succeeds when the condition holds, otherwise the
program dies with an assertion failure. -/
def cAssert (p : Prop) [Decidable p] (msg : String) : Except CFault Unit :=
  if p then .ok () else .error (.assertFail msg)

/-- The C `strlen`, applied to a possibly-NULL pointer: `strlen(NULL)` is
undefined behaviour. -/
def strlen : Option String → Except CFault Nat
  | none => .error (.undefinedBehavior "strlen(NULL)")
  | some s => .ok s.length

/-- The built-in help command registered by `scp_init`. -/
def help_cmd : Command :=
  { cmd_str := "help", abbr_str := some "h",
    help_str := "Lists all commands available.",
    min_arg := 0, max_arg := 0, func := .helpFn }

/-- The built-in end command registered by `scp_init` when `do_not_exit`
is 0. -/
def end_cmd : Command :=
  { cmd_str := "end", abbr_str := some "end",
    help_str := "Exit the parser.",
    min_arg := 0, max_arg := 0, func := .endFn }

/-- `scp_init`: builds the fresh registry, adding the help command and then,
if `do_not_exit` is 0 (C `if (!do_not_exit)`), the end command. -/
def scp_init (do_not_exit : Int) : List Command :=
  if do_not_exit = 0 then [help_cmd, end_cmd] else [help_cmd]

/-- `scp_add_command`: validates its inputs with `assert` in the order of the
C source and appends a new descriptor at the end of the registry list. -/
def scp_add_command (cmds : List Command)
    (cmd_str abbr_str help_str : Option String)
    (min_arg max_arg : Int) (func : Option CmdFunc) :
    Except CFault (List Command) := do
  cAssert (cmds.isEmpty = false) "cmd_list.head"
  cAssert (cmd_str.isSome = true) "cmd_str"
  cAssert (help_str.isSome = true) "help_str"
  cAssert (min_arg ≤ max_arg) "min_arg <= max_arg"
  cAssert (func.isSome = true) "func"
  let n1 ← strlen cmd_str
  cAssert (n1 < MAX_CMD_STR) "strlen(cmd_str) < MAX_CMD_STR"
  let n2 ← strlen abbr_str
  cAssert (n2 < MAX_ABBR_STR) "strlen(abbr_str) < MAX_ABBR_STR"
  let n3 ← strlen help_str
  cAssert (n3 < MAX_HELP_STR) "strlen(help_str) < MAX_HELP_STR"
  match cmd_str, help_str, func with
  | some c, some h, some f =>
      .ok (cmds ++ [{ cmd_str := c, abbr_str := abbr_str, help_str := h,
                      min_arg := min_arg, max_arg := max_arg, func := f }])
  | _, _, _ => .error (.undefinedBehavior "unreachable")

/-- The match test of one `find_command` loop iteration:
`strcmp(name, cmd_str) == 0 || (abbr_str && strcmp(name, abbr_str) == 0)`. -/
def cmdMatches (name : String) (c : Command) : Bool :=
  name == c.cmd_str ||
    (match c.abbr_str with
     | some a => name == a
     | none => false)

/-- `find_command`: linear search through the registry.  The `name` argument
is the result of `strtok` and may be NULL; `strcmp(NULL, s)` in a loop
iteration is undefined behaviour (with an empty registry the loop body never
runs and NULL is returned without touching `name`). -/
def find_command (cmds : List Command) (name : Option String) :
    Except CFault (Option Command) :=
  match cmds with
  | [] => .ok none
  | c :: rest =>
    match name with
    | none => .error (.undefinedBehavior "strcmp(NULL, cmd_str)")
    | some n => if cmdMatches n c then .ok (some c) else find_command rest name

/-- The `strtok` delimiter set of `scp_parse`: `" .,"`. -/
def isDelim (c : Char) : Bool := c == ' ' || c == '.' || c == ','

/-- Worker for `tokenize`: walks the characters, accumulating the current
token in reverse; delimiters flush the accumulator, empty pieces are
dropped, exactly as a `strtok` loop over `" .,"` produces tokens. -/
def tokenizeAux : List Char → List Char → List String
  | [], cur => if cur.isEmpty then [] else [String.mk cur.reverse]
  | c :: rest, cur =>
    if isDelim c then
      if cur.isEmpty then tokenizeAux rest []
      else String.mk cur.reverse :: tokenizeAux rest []
    else tokenizeAux rest (c :: cur)

/-- The full token sequence a `strtok(.., " .,")` loop extracts from a
line. -/
def tokenize (s : String) : List String := tokenizeAux s.data []

/-- The observable outcome of one iteration of the `scp_parse` loop. -/
inductive StepOutput where
  | emptyLine : StepOutput
  | unknown (tok : String) : StepOutput
  | tooFew (cmd : String) (min_arg : Int) : StepOutput
  | tooMany (cmd : String) (max_arg : Int) : StepOutput
  | invoked (cmd : String) (args : List String) (result : Int) : StepOutput

/-- The mutable state of `scp_parse`: the registry (`cmd_list`), the static
stop flag (`end_parsing`) and the prompt counter (`count`, local to
`scp_parse` and starting at 1). -/
structure ParseState where
  cmd_list : List Command
  end_parsing : Int
  count : Int

/-- Calling a command's handler: `help_cmd_func` returns 1 and leaves the
state alone, `end_cmd_func` sets `end_parsing` to 1 and returns 1, a user
handler returns its pure result. -/
def applyFunc (st : ParseState) (c : Command) (args : List String) :
    ParseState × Int :=
  match c.func with
  | .helpFn => (st, 1)
  | .endFn => ({ st with end_parsing := 1 }, 1)
  | .user f => (st, f args)

/-- One iteration of the `scp_parse` loop after `input` has produced `line`:
skip empty lines, take the first `strtok` token, look it up, collect at most
`MAX_ARGC` argument tokens, enforce the arity bounds, and otherwise invoke
the handler.  The count is incremented on every non-empty line.  A NULL
first token reaching `strcmp` inside `find_command`, or reaching the
`printf("%s", token)` of the unknown-command branch, is undefined
behaviour. -/
def dispatchLine (st : ParseState) (line : String) :
    Except CFault (ParseState × StepOutput) :=
  if line.length = 0 then .ok (st, .emptyLine)
  else
    match find_command st.cmd_list (tokenize line).head? with
    | .error e => .error e
    | .ok none =>
      match (tokenize line).head? with
      | none => .error (.undefinedBehavior "printf(%s, NULL)")
      | some t => .ok ({ st with count := st.count + 1 }, .unknown t)
    | .ok (some command) =>
      let args := (tokenize line).tail.take MAX_ARGC
      if (args.length : Int) < command.min_arg then
        .ok ({ st with count := st.count + 1 },
             .tooFew command.cmd_str command.min_arg)
      else if (args.length : Int) > command.max_arg then
        .ok ({ st with count := st.count + 1 },
             .tooMany command.cmd_str command.max_arg)
      else
        .ok ({ (applyFunc st command args).1 with
               count := (applyFunc st command args).1.count + 1 },
             .invoked command.cmd_str args (applyFunc st command args).2)

/-- The `scp_parse` while loop over a finite supply of input lines: before
each line the `end_parsing` flag is tested, exactly like
`while (end_parsing == 0)`. -/
def runLines (st : ParseState) (lines : List String) :
    Except CFault ParseState :=
  match lines with
  | [] => .ok st
  | l :: rest =>
    if st.end_parsing = 0 then
      match dispatchLine st l with
      | .error e => .error e
      | .ok (st2, _) => runLines st2 rest
    else .ok st

/-- Whether an `scp_add_command` outcome is a failed `assert`. -/
def isAssertFail : Except CFault (List Command) → Bool
  | .error (.assertFail _) => true
  | _ => false

/-- Whether a dispatch outcome is a normal (non-fault) one. -/
def exceptOk : Except CFault (ParseState × StepOutput) → Bool
  | .ok _ => true
  | .error _ => false

/-- The argv token list a loop iteration hands to the handler it invokes
(empty for the outcomes that invoke no handler). -/
def outArgs : StepOutput → List String
  | .invoked _ args _ => args
  | _ => []

end SCP

namespace SCP

/-! The keyboard reader `input`.  The buffer is modelled as a write log:
each C store `*ptr = c` is recorded as the pair (offset of `ptr` inside
`in_buffer`, `c`), most recent first, so that out-of-bounds stores remain
visible.  `getch` blocking with an exhausted keystroke stream is the
`blocked` outcome. -/

/-- Result of running the read loop of `input`: either the loop exited
(`done`, carrying the final `ptr` offset and the write log), or the
keystroke stream ran out while `getch` would still block (`blocked`). -/
inductive LoopRes where
  | done (p : Nat) (log : List (Nat × Char)) : LoopRes
  | blocked (p : Nat) (log : List (Nat × Char)) : LoopRes
deriving DecidableEq

/-- The backspace test of `input`: `*ptr == '\b' || (int)*ptr == 127`. -/
def isBackspace (c : Char) : Bool := c == Char.ofNat 8 || c.toNat == 127

/-- The read loop of `input`.  Every iteration first stores the keystroke at
the current offset (`*ptr = GETCH()`), then tests, in the C order of
evaluation, for carriage return, newline and `ptr < max` (offset `< len`);
a backspace or DEL retreats the offset when it is positive, any other
character advances it. -/
def inputLoop (len : Nat) : List Char → Nat → List (Nat × Char) → LoopRes
  | [], p, log => .blocked p log
  | c :: rest, p, log =>
    if c = '\r' then .done p ((p, c) :: log)
    else if c = '\n' then .done p ((p, c) :: log)
    else if ¬ p < len then .done p ((p, c) :: log)
    else if isBackspace c then
      if 0 < p then inputLoop len rest (p - 1) ((p, c) :: log)
      else inputLoop len rest p ((p, c) :: log)
    else inputLoop len rest (p + 1) ((p, c) :: log)

/-- `input(in_buffer, len)` on a given keystroke stream: runs the read loop
from offset 0, then stores the terminating 0 at the final offset and returns
`ptr - in_buffer` together with the write log; `none` when the stream is
exhausted before the loop exits. -/
def input (stream : List Char) (len : Nat) :
    Option (Nat × List (Nat × Char)) :=
  match inputLoop len stream 0 [] with
  | .done p log => some (p, (p, Char.ofNat 0) :: log)
  | .blocked _ _ => none

/-- The byte of the buffer at offset `i` according to a write log (the most
recent write wins). -/
def bufAt (log : List (Nat × Char)) (i : Nat) : Option Char :=
  (log.find? (fun e => e.1 == i)).map Prod.snd

/-- The first `p` bytes of the buffer according to a write log: the string
contents below the final position (unwritten bytes read as 0). -/
def storedString (p : Nat) (log : List (Nat × Char)) : List Char :=
  (List.range p).map (fun i => (bufAt log i).getD (Char.ofNat 0))

/-- All byte offsets of `in_buffer` that a run of `input` wrote to. -/
def writeOffsets (log : List (Nat × Char)) : List Nat := log.map Prod.fst

/-- Abstraction of a read-loop result: whether the loop exited, the final
offset, and the stored string below it. -/
def absRes : LoopRes → Bool × Nat × List Char
  | .done p log => (true, p, storedString p log)
  | .blocked p log => (false, p, storedString p log)

/-- Continuing a read-loop result with further keystrokes: a loop that
already exited ignores them, a blocked loop resumes from its state. -/
def contLoop (len : Nat) (s2 : List Char) : LoopRes → LoopRes
  | .done q l => .done q l
  | .blocked q l => inputLoop len s2 q l

/-! Concrete fixtures used to evaluate the model at specific inputs. -/

/-- The backspace character. -/
def BS : Char := Char.ofNat 8

/-- A trivial user handler. -/
def f0 : CmdFunc := .user (fun _ => 0)

/-- The parser state right after `scp_init(0)`, at the first prompt. -/
def st0 : ParseState := { cmd_list := scp_init 0, end_parsing := 0, count := 1 }

/-- A user command demanding between 7 and 8 arguments (accepted by
`scp_add_command`: 7 <= 8 and all strings are within their limits). -/
def seven_cmd : Command :=
  { cmd_str := "seven", abbr_str := some "sv", help_str := "Needs seven args.",
    min_arg := 7, max_arg := 8, func := .user (fun _ => 42) }

/-- The parser state after `scp_init(0)` and registration of `seven_cmd`. -/
def st9 : ParseState :=
  { cmd_list := [help_cmd, end_cmd, seven_cmd], end_parsing := 0, count := 1 }

/-- A user command taking up to 10 arguments; its handler returns the number
of arguments it received. -/
def big_cmd : Command :=
  { cmd_str := "big", abbr_str := some "b", help_str := "Takes many args.",
    min_arg := 0, max_arg := 10, func := .user (fun args => (args.length : Int)) }

/-- The parser state after `scp_init(0)` and registration of `big_cmd`. -/
def stBig : ParseState :=
  { cmd_list := [help_cmd, end_cmd, big_cmd], end_parsing := 0, count := 1 }

/-- A descriptor whose abbreviation is absent (`abbr_str == NULL`). -/
def noab_cmd : Command :=
  { cmd_str := "noab", abbr_str := none, help_str := "No abbreviated form.",
    min_arg := 0, max_arg := 0, func := f0 }

end SCP

namespace SCP

/-! Lemmas about `find_command`. -/

/-- A descriptor returned by `find_command` belongs to the registry. -/
theorem find_command_mem {cmds : List Command} {name : Option String}
    {c : Command} (h : find_command cmds name = .ok (some c)) : c ∈ cmds := by
  induction cmds with
  | nil => simp [find_command] at h
  | cons c0 rest ih =>
    cases name with
    | none => simp [find_command] at h
    | some n =>
      by_cases hm : cmdMatches n c0
      · simp [find_command, hm] at h
        simp [h]
      · simp [find_command, hm] at h
        exact List.mem_cons_of_mem _ (ih h)

/-- The descriptor returned by `find_command` is the earliest matching one:
the registry splits as `l1 ++ c :: l2` with no match in `l1`. -/
theorem find_command_first {cmds : List Command} {n : String} {c : Command}
    (h : find_command cmds (some n) = .ok (some c)) :
    ∃ l1 l2, cmds = l1 ++ c :: l2 ∧ cmdMatches n c = true ∧
      ∀ c' ∈ l1, cmdMatches n c' = false := by
  induction cmds with
  | nil => simp [find_command] at h
  | cons c0 rest ih =>
    by_cases hm : cmdMatches n c0
    · simp [find_command, hm] at h
      exact ⟨[], rest, by simp [h], by rw [← h]; exact hm, by simp⟩
    · simp [find_command, hm] at h
      obtain ⟨l1, l2, heq, hc, hnone⟩ := ih h
      refine ⟨c0 :: l1, l2, by simp [heq], hc, ?_⟩
      intro c' hc'
      rcases List.mem_cons.mp hc' with rfl | hmem
      · exact Bool.not_eq_true _ ▸ (by simpa using hm)
      · exact hnone c' hmem

/-- `find_command` yields no descriptor exactly when no registered
descriptor matches the token. -/
theorem find_command_none_iff (cmds : List Command) (n : String) :
    find_command cmds (some n) = .ok none ↔
      ∀ c ∈ cmds, cmdMatches n c = false := by
  induction cmds with
  | nil => simp [find_command]
  | cons c0 rest ih =>
    by_cases hm : cmdMatches n c0
    · simp [find_command, hm]
    · simp [find_command, hm, ih]

/-- A matching registered descriptor guarantees that `find_command` returns
some descriptor. -/
theorem find_command_found {cmds : List Command} {n : String} {c : Command}
    (hmem : c ∈ cmds) (hm : cmdMatches n c = true) :
    ∃ c', find_command cmds (some n) = .ok (some c') := by
  induction cmds with
  | nil => simp at hmem
  | cons c0 rest ih =>
    by_cases hm0 : cmdMatches n c0
    · exact ⟨c0, by simp [find_command, hm0]⟩
    · rcases List.mem_cons.mp hmem with rfl | hmem'
      · exact absurd hm hm0
      · obtain ⟨c', hc'⟩ := ih hmem'
        exact ⟨c', by simp [find_command, hm0, hc']⟩

/-- With a non-NULL token `find_command` never faults. -/
theorem find_command_some_ok (cmds : List Command) (n : String) :
    ∃ r, find_command cmds (some n) = .ok r := by
  induction cmds with
  | nil => exact ⟨none, rfl⟩
  | cons c0 rest ih =>
    by_cases hm : cmdMatches n c0
    · exact ⟨some c0, by simp [find_command, hm]⟩
    · obtain ⟨r, hr⟩ := ih
      exact ⟨r, by simp [find_command, hm, hr]⟩

end SCP

namespace SCP

/-! Lemmas about the dispatch loop. -/

/-- Unfolding of `dispatchLine` for a non-empty line whose first token was
found in the registry. -/
theorem dispatch_found (st : ParseState) (line t : String) (cmd : Command)
    (hlen : ¬ line.length = 0)
    (htok : (tokenize line).head? = some t)
    (hfind : find_command st.cmd_list (some t) = .ok (some cmd)) :
    dispatchLine st line =
      if (((tokenize line).tail.take MAX_ARGC).length : Int) < cmd.min_arg then
        .ok ({ st with count := st.count + 1 },
             .tooFew cmd.cmd_str cmd.min_arg)
      else if (((tokenize line).tail.take MAX_ARGC).length : Int) > cmd.max_arg then
        .ok ({ st with count := st.count + 1 },
             .tooMany cmd.cmd_str cmd.max_arg)
      else
        .ok ({ (applyFunc st cmd ((tokenize line).tail.take MAX_ARGC)).1 with
               count := (applyFunc st cmd ((tokenize line).tail.take MAX_ARGC)).1.count + 1 },
             .invoked cmd.cmd_str ((tokenize line).tail.take MAX_ARGC)
               (applyFunc st cmd ((tokenize line).tail.take MAX_ARGC)).2) := by
  have h2 : find_command st.cmd_list (tokenize line).head? = .ok (some cmd) := by
    rw [htok]; exact hfind
  simp only [dispatchLine, if_neg hlen, h2]

/-- A normal dispatch step touches neither the registry nor, when no
registered handler is `end_cmd_func`, the stop flag. -/
theorem dispatch_preserves {st : ParseState} {line : String}
    {st2 : ParseState} {out : StepOutput}
    (hne : ∀ c ∈ st.cmd_list, c.func ≠ CmdFunc.endFn)
    (h : dispatchLine st line = .ok (st2, out)) :
    st2.cmd_list = st.cmd_list ∧ st2.end_parsing = st.end_parsing := by
  by_cases hlen : line.length = 0
  · simp only [dispatchLine, if_pos hlen] at h
    cases h
    exact ⟨rfl, rfl⟩
  · simp only [dispatchLine, if_neg hlen] at h
    cases hfc : find_command st.cmd_list (tokenize line).head? with
    | error e => rw [hfc] at h; cases h
    | ok r =>
      rw [hfc] at h
      cases r with
      | none =>
        cases htok : (tokenize line).head? with
        | none => rw [htok] at h; cases h
        | some t =>
          rw [htok] at h
          cases h
          exact ⟨rfl, rfl⟩
      | some cmd =>
        have hmem : cmd ∈ st.cmd_list := find_command_mem hfc
        simp only at h
        split at h
        · cases h; exact ⟨rfl, rfl⟩
        · split at h
          · cases h; exact ⟨rfl, rfl⟩
          · cases h
            cases hf : cmd.func with
            | helpFn => simp [applyFunc, hf]
            | endFn => exact absurd hf (hne cmd hmem)
            | user f => simp [applyFunc, hf]

/-- Running any number of loop iterations with a registry free of
`end_cmd_func` keeps the stop flag clear and the registry unchanged: the
`while (end_parsing == 0)` condition stays true forever. -/
theorem runLines_preserves (lines : List String) :
    ∀ st st' : ParseState, (∀ c ∈ st.cmd_list, c.func ≠ CmdFunc.endFn) →
      st.end_parsing = 0 → runLines st lines = .ok st' →
      st'.end_parsing = 0 ∧ st'.cmd_list = st.cmd_list := by
  induction lines with
  | nil =>
    intro st st' _ hflag h
    cases h
    exact ⟨hflag, rfl⟩
  | cons l rest ih =>
    intro st st' hne hflag h
    simp only [runLines, if_pos hflag] at h
    cases hd : dispatchLine st l with
    | error e => rw [hd] at h; cases h
    | ok p =>
      rw [hd] at h
      obtain ⟨hlist, hflag2⟩ := dispatch_preserves hne hd
      have := ih p.1 st' (by rw [hlist]; exact hne) (by rw [hflag2]; exact hflag) h
      exact ⟨this.1, by rw [this.2, hlist]⟩

end SCP

namespace SCP

/-! Lemmas about the tokenizer. -/

/-- A non-empty accumulator is always flushed, so the token list is
non-empty. -/
theorem tokenizeAux_ne_nil_of_cur (s : List Char) :
    ∀ cur : List Char, cur ≠ [] → tokenizeAux s cur ≠ [] := by
  induction s with
  | nil =>
    intro cur h
    simp [tokenizeAux, h]
  | cons c rest ih =>
    intro cur h
    by_cases hd : isDelim c
    · simp [tokenizeAux, hd, h]
    · simp only [tokenizeAux, if_neg hd]
      exact ih (c :: cur) (by simp)

/-- A character that is not a delimiter guarantees at least one token. -/
theorem tokenizeAux_ne_nil (s : List Char) :
    ∀ cur : List Char, (∃ ch ∈ s, isDelim ch = false) → tokenizeAux s cur ≠ [] := by
  induction s with
  | nil =>
    intro cur h
    simp at h
  | cons c rest ih =>
    intro cur h
    by_cases hd : isDelim c
    · obtain ⟨ch, hmem, hch⟩ := h
      have hch' : ch ∈ rest := by
        rcases List.mem_cons.mp hmem with rfl | hm
        · rw [hd] at hch; cases hch
        · exact hm
      by_cases hcur : cur.isEmpty
      · simp only [tokenizeAux, if_pos hd, if_pos hcur]
        exact ih [] ⟨ch, hch', hch⟩
      · simp [tokenizeAux, hd, hcur]
    · simp only [tokenizeAux, if_neg hd]
      exact tokenizeAux_ne_nil_of_cur rest (c :: cur) (by simp)

/-- A line containing at least one non-delimiter character tokenizes to a
non-empty token list. -/
theorem tokenize_ne_nil {line : String}
    (h : ∃ ch ∈ line.data, isDelim ch = false) : tokenize line ≠ [] :=
  tokenizeAux_ne_nil line.data [] h

/-- With a non-NULL first token the dispatch step never faults. -/
theorem dispatch_ok_of_token {st : ParseState} {line t : String}
    (htok : (tokenize line).head? = some t) :
    exceptOk (dispatchLine st line) = true := by
  by_cases hlen : line.length = 0
  · simp [dispatchLine, hlen, exceptOk]
  · obtain ⟨r, hr⟩ := find_command_some_ok st.cmd_list t
    have h2 : find_command st.cmd_list (tokenize line).head? = .ok r := by
      rw [htok]; exact hr
    simp only [dispatchLine, if_neg hlen, h2]
    cases r with
    | none => simp [htok, exceptOk]
    | some cmd =>
      simp only
      split
      · rfl
      · split
        · rfl
        · rfl

end SCP

namespace SCP

/-! Lemmas about the keyboard reader. -/

/-- A write at another offset does not change the byte read at `i`. -/
theorem bufAt_cons_ne {q i : Nat} (c : Char) (log : List (Nat × Char))
    (h : q ≠ i) : bufAt ((q, c) :: log) i = bufAt log i := by
  have hb : ((q, c).1 == i) = false := by simpa using h
  simp [bufAt, List.find?, hb]

/-- The byte read at `i` right after a write at `i` is the written one. -/
theorem bufAt_cons_eq (i : Nat) (c : Char) (log : List (Nat × Char)) :
    bufAt ((i, c) :: log) i = some c := by
  simp [bufAt, List.find?]

/-- A write at an offset at or above `p` leaves the first `p` bytes
unchanged. -/
theorem storedString_cons_ge {p q : Nat} (c : Char) (log : List (Nat × Char))
    (h : p ≤ q) : storedString p ((q, c) :: log) = storedString p log := by
  unfold storedString
  refine List.map_congr_left ?_
  intro i hi
  have : i < p := List.mem_range.mp hi
  rw [bufAt_cons_ne c log (by omega)]

/-- A write at offset `p` appends the written byte to the first `p` bytes. -/
theorem storedString_succ (p : Nat) (c : Char) (log : List (Nat × Char)) :
    storedString (p + 1) ((p, c) :: log) = storedString p log ++ [c] := by
  show (List.range (p + 1)).map _ = _
  rw [List.range_succ, List.map_append]
  have h1 : [p].map (fun i => (bufAt ((p, c) :: log) i).getD (Char.ofNat 0)) = [c] := by
    simp [bufAt_cons_eq]
  rw [h1]
  congr 1
  exact storedString_cons_ge c log (le_refl p)

/-- The first `m` bytes are a prefix of the first `p` bytes when `m ≤ p`. -/
theorem storedString_take {m p : Nat} (log : List (Nat × Char)) (h : m ≤ p) :
    storedString m log = (storedString p log).take m := by
  unfold storedString
  rw [← List.map_take, List.take_range m p]
  have hm : m ⊓ p = m := min_eq_left h
  rw [hm]

/-- A backspace is neither a carriage return nor a newline. -/
theorem isBackspace_ne_ret {bs : Char} (h : isBackspace bs = true) :
    ¬ bs = '\r' ∧ ¬ bs = '\n' := by
  constructor
  · intro hh
    rw [hh] at h
    exact absurd h (by decide)
  · intro hh
    rw [hh] at h
    exact absurd h (by decide)

/-- One loop iteration on an ordinary character with room in the buffer:
store, echo, advance. -/
theorem inputLoop_step_ord (len p : Nat) (log : List (Nat × Char))
    (c : Char) (rest : List Char)
    (h1 : ¬ c = '\r') (h2 : ¬ c = '\n') (h3 : p < len)
    (h4 : isBackspace c = false) :
    inputLoop len (c :: rest) p log = inputLoop len rest (p + 1) ((p, c) :: log) := by
  simp only [inputLoop, if_neg h1, if_neg h2, if_neg (not_not_intro h3)]
  rw [if_neg (by simp [h4])]

/-- One loop iteration on a backspace with room and a positive offset:
store, retreat. -/
theorem inputLoop_step_bs (len p : Nat) (log : List (Nat × Char))
    (c : Char) (rest : List Char)
    (h3 : p < len) (h4 : isBackspace c = true) (h5 : 0 < p) :
    inputLoop len (c :: rest) p log = inputLoop len rest (p - 1) ((p, c) :: log) := by
  obtain ⟨h1, h2⟩ := isBackspace_ne_ret h4
  simp only [inputLoop, if_neg h1, if_neg h2, if_neg (not_not_intro h3)]
  rw [if_pos h4, if_pos h5]

/-- One loop iteration on a backspace at offset 0 with room: store, stay. -/
theorem inputLoop_step_bs0 (len : Nat) (log : List (Nat × Char))
    (c : Char) (rest : List Char)
    (h3 : 0 < len) (h4 : isBackspace c = true) :
    inputLoop len (c :: rest) 0 log = inputLoop len rest 0 ((0, c) :: log) := by
  obtain ⟨h1, h2⟩ := isBackspace_ne_ret h4
  simp only [inputLoop, if_neg h1, if_neg h2, if_neg (not_not_intro h3)]
  rw [if_pos h4, if_neg (lt_irrefl 0)]

/-- One loop iteration that exits because the buffer offset reached `len`:
the keystroke is still stored, at the out-of-bounds offset. -/
theorem inputLoop_step_full (len p : Nat) (log : List (Nat × Char))
    (c : Char) (rest : List Char)
    (h1 : ¬ c = '\r') (h2 : ¬ c = '\n') (h3 : ¬ p < len) :
    inputLoop len (c :: rest) p log = .done p ((p, c) :: log) := by
  simp only [inputLoop, if_neg h1, if_neg h2]
  rw [if_pos h3]

/-- The observable outcome of the read loop depends on the write log only
through the stored bytes below the current offset. -/
theorem inputLoop_congr (len : Nat) (s : List Char) :
    ∀ p : Nat, ∀ log1 log2 : List (Nat × Char),
      storedString p log1 = storedString p log2 →
      absRes (inputLoop len s p log1) = absRes (inputLoop len s p log2) := by
  induction s with
  | nil =>
    intro p l1 l2 h
    simp [inputLoop, absRes, h]
  | cons c rest ih =>
    intro p l1 l2 h
    have hcons : storedString p ((p, c) :: l1) = storedString p ((p, c) :: l2) := by
      rw [storedString_cons_ge c l1 (le_refl p), storedString_cons_ge c l2 (le_refl p)]
      exact h
    by_cases h1 : c = '\r'
    · simp only [inputLoop, if_pos h1]
      simp [absRes, hcons]
    · by_cases h2 : c = '\n'
      · simp only [inputLoop, if_neg h1, if_pos h2]
        simp [absRes, hcons]
      · by_cases h3 : p < len
        · by_cases h4 : isBackspace c
          · by_cases h5 : 0 < p
            · rw [inputLoop_step_bs len p l1 c rest h3 h4 h5,
                inputLoop_step_bs len p l2 c rest h3 h4 h5]
              apply ih
              rw [storedString_cons_ge c l1 (Nat.sub_le p 1),
                storedString_cons_ge c l2 (Nat.sub_le p 1)]
              rw [storedString_take l1 (Nat.sub_le p 1),
                storedString_take l2 (Nat.sub_le p 1), h]
            · have hp0 : p = 0 := by omega
              subst hp0
              rw [inputLoop_step_bs0 len l1 c rest h3 h4,
                inputLoop_step_bs0 len l2 c rest h3 h4]
              exact ih 0 _ _ hcons
          · rw [inputLoop_step_ord len p l1 c rest h1 h2 h3 (by simpa using h4),
              inputLoop_step_ord len p l2 c rest h1 h2 h3 (by simpa using h4)]
            apply ih
            rw [storedString_succ, storedString_succ, h]
        · rw [inputLoop_step_full len p l1 c rest h1 h2 h3,
            inputLoop_step_full len p l2 c rest h1 h2 h3]
          simp [absRes, hcons]

/-- Splitting a keystroke stream: the loop runs on the first part and, if it
did not exit there, resumes on the second. -/
theorem inputLoop_append (len : Nat) (s1 : List Char) :
    ∀ s2 : List Char, ∀ p : Nat, ∀ log : List (Nat × Char),
      inputLoop len (s1 ++ s2) p log = contLoop len s2 (inputLoop len s1 p log) := by
  induction s1 with
  | nil =>
    intro s2 p log
    simp [inputLoop, contLoop]
  | cons c rest ih =>
    intro s2 p log
    rw [List.cons_append]
    by_cases h1 : c = '\r'
    · simp only [inputLoop, if_pos h1]
      simp [contLoop]
    · by_cases h2 : c = '\n'
      · simp only [inputLoop, if_neg h1, if_pos h2]
        simp [contLoop]
      · by_cases h3 : p < len
        · by_cases h4 : isBackspace c
          · by_cases h5 : 0 < p
            · rw [inputLoop_step_bs len p log c (rest ++ s2) h3 h4 h5,
                inputLoop_step_bs len p log c rest h3 h4 h5]
              exact ih s2 (p - 1) _
            · have hp0 : p = 0 := by omega
              subst hp0
              rw [inputLoop_step_bs0 len log c (rest ++ s2) h3 h4,
                inputLoop_step_bs0 len log c rest h3 h4]
              exact ih s2 0 _
          · rw [inputLoop_step_ord len p log c (rest ++ s2) h1 h2 h3 (by simpa using h4),
              inputLoop_step_ord len p log c rest h1 h2 h3 (by simpa using h4)]
            exact ih s2 (p + 1) _
        · rw [inputLoop_step_full len p log c (rest ++ s2) h1 h2 h3,
            inputLoop_step_full len p log c rest h1 h2 h3]
          simp [contLoop]

/-- An ordinary keystroke followed by a backspace, consumed while the buffer
still has room for both, leaves the loop in the state it started from
(except for writes at or above the current offset). -/
theorem inputLoop_cancel (len p : Nat) (log : List (Nat × Char))
    (c bs : Char) (rest : List Char)
    (hc1 : ¬ c = '\r') (hc2 : ¬ c = '\n') (hc3 : isBackspace c = false)
    (hbs : isBackspace bs = true) (hroom : p + 1 < len) :
    inputLoop len (c :: bs :: rest) p log
      = inputLoop len rest p ((p + 1, bs) :: (p, c) :: log) := by
  have hplen : p < len := by omega
  rw [inputLoop_step_ord len p log c (bs :: rest) hc1 hc2 hplen hc3,
    inputLoop_step_bs len (p + 1) ((p, c) :: log) bs rest hroom hbs (Nat.succ_pos p),
    Nat.add_sub_cancel]

end SCP

namespace SCP

/-- When the stop flag is set the loop body never runs again. -/
theorem runLines_stopped {st : ParseState} (lines : List String)
    (h : ¬ st.end_parsing = 0) : runLines st lines = .ok st := by
  cases lines with
  | nil => rfl
  | cons l rest => simp [runLines, h]

/-- C6: a zero-length input line is a no-op of the dispatch loop: no token
is extracted, `find_command` is not consulted, no handler runs, and the
whole parse state (registry, stop flag and prompt counter) is returned
unchanged, so the loop just prompts again. -/
theorem C6_empty_line_noop (st : ParseState) :
    dispatchLine st "" = .ok (st, .emptyLine) := rfl

/-- C1: for a dispatched line whose first token resolves to a registered
command (registration guarantees `min_arg <= max_arg`), the handler is
invoked if and only if the collected argument count lies inclusively
between `min_arg` and `max_arg`; below the range the step reports
too-few-arguments, above it too-many-arguments, and in both error cases
the handler is not invoked and the loop state only advances its prompt
counter, so the loop continues. -/
theorem C1_arity_bounds (st : ParseState) (line t : String) (cmd : Command)
    (hlen : ¬ line.length = 0)
    (htok : (tokenize line).head? = some t)
    (hfind : find_command st.cmd_list (some t) = .ok (some cmd))
    (hmm : cmd.min_arg ≤ cmd.max_arg) :
    ((∃ st2 : ParseState, ∃ r : Int, dispatchLine st line =
        .ok (st2, .invoked cmd.cmd_str ((tokenize line).tail.take MAX_ARGC) r)) ↔
      (cmd.min_arg ≤ (((tokenize line).tail.take MAX_ARGC).length : Int) ∧
        (((tokenize line).tail.take MAX_ARGC).length : Int) ≤ cmd.max_arg)) ∧
    ((((tokenize line).tail.take MAX_ARGC).length : Int) < cmd.min_arg →
      dispatchLine st line = .ok ({ st with count := st.count + 1 },
        .tooFew cmd.cmd_str cmd.min_arg)) ∧
    ((((tokenize line).tail.take MAX_ARGC).length : Int) > cmd.max_arg →
      dispatchLine st line = .ok ({ st with count := st.count + 1 },
        .tooMany cmd.cmd_str cmd.max_arg)) := by
  have hd := dispatch_found st line t cmd hlen htok hfind
  by_cases hlt : (((tokenize line).tail.take MAX_ARGC).length : Int) < cmd.min_arg
  · rw [if_pos hlt] at hd
    refine ⟨⟨?_, ?_⟩, fun _ => hd, fun hgt => absurd hgt (by omega)⟩
    · rintro ⟨st2, r, h⟩
      rw [hd] at h
      simp at h
    · rintro ⟨hmin, _⟩
      exact absurd hlt (not_lt.mpr hmin)
  · rw [if_neg hlt] at hd
    by_cases hgt : (((tokenize line).tail.take MAX_ARGC).length : Int) > cmd.max_arg
    · rw [if_pos hgt] at hd
      refine ⟨⟨?_, ?_⟩, fun hlt2 => absurd hlt2 hlt, fun _ => hd⟩
      · rintro ⟨st2, r, h⟩
        rw [hd] at h
        simp at h
      · rintro ⟨_, hmax⟩
        exact absurd hgt (not_lt.mpr hmax)
    · rw [if_neg hgt] at hd
      exact ⟨⟨fun _ => ⟨by omega, by omega⟩, fun _ => ⟨_, _, hd⟩⟩,
        fun hlt2 => absurd hlt2 hlt, fun hgt2 => absurd hgt2 hgt⟩

/-- Witness for C1 at a concrete input: `help` takes no arguments, so the
line `help x` (one collected argument, above `max_arg = 0`) is reported as
too-many-arguments without invoking the handler. -/
theorem C1_witness :
    dispatchLine st0 "help x" =
      .ok ({ st0 with count := st0.count + 1 }, .tooMany "help" 0) := by
  have h := (C1_arity_bounds st0 "help x" "help" help_cmd (by decide) rfl rfl
    (by decide)).2.2 (by decide)
  exact h

/-- C3: `find_command` returns the earliest-registered descriptor whose full
name or abbreviation equals the token under case-sensitive comparison
(`strcmp`), returns none exactly when no descriptor matches, and in
particular finds every registered command both by its full name and by its
abbreviation. -/
theorem C3_lookup (cmds : List Command) (n : String) :
    (∀ c : Command, find_command cmds (some n) = .ok (some c) →
      ∃ l1 l2, cmds = l1 ++ c :: l2 ∧ cmdMatches n c = true ∧
        ∀ c' ∈ l1, cmdMatches n c' = false) ∧
    (find_command cmds (some n) = .ok none ↔
      ∀ c ∈ cmds, cmdMatches n c = false) ∧
    (∀ c ∈ cmds, (n = c.cmd_str ∨ c.abbr_str = some n) →
      ∃ c', find_command cmds (some n) = .ok (some c')) := by
  refine ⟨fun c h => find_command_first h, find_command_none_iff cmds n, ?_⟩
  intro c hmem hm
  apply find_command_found hmem
  rcases hm with h | h
  · simp [cmdMatches, h]
  · simp [cmdMatches, h]

/-- Witness for C3 at a concrete input: the abbreviation `h` of the help
command is found. -/
theorem C3_witness :
    find_command [help_cmd, end_cmd] (some "h") = .ok (some help_cmd) := by
  have h := (C3_lookup [help_cmd, end_cmd] "h").2.2 help_cmd
    (List.mem_cons_self _ _) (Or.inr rfl)
  exact rfl

/-- C4: after `scp_init(0)` the end command is registered and its handler is
the only one that sets the stop flag: entering `end` sets `end_parsing` and
the loop consumes no further line.  After `scp_init` with a nonzero
`do_not_exit` the end command is absent; no handler of such a registry can
set the stop flag, so after any finite number of normally completing
iterations the flag is still 0 and the `while (end_parsing == 0)` loop is
still running — it never terminates. -/
theorem C4_end_termination :
    (∃ c ∈ scp_init 0, c.func = CmdFunc.endFn) ∧
    (∀ st : ParseState, ∀ extra : List Command,
      st.cmd_list = scp_init 0 ++ extra → st.end_parsing = 0 →
      ∀ rest : List String,
        runLines st ("end" :: rest)
          = .ok { st with end_parsing := 1, count := st.count + 1 }) ∧
    (∀ d : Int, ¬ d = 0 → ∀ c ∈ scp_init d, ¬ c.func = CmdFunc.endFn) ∧
    (∀ st st' : ParseState, ∀ lines : List String,
      (∀ c ∈ st.cmd_list, ¬ c.func = CmdFunc.endFn) → st.end_parsing = 0 →
      runLines st lines = .ok st' → st'.end_parsing = 0) := by
  refine ⟨⟨end_cmd, by simp [scp_init], rfl⟩, ?_, ?_, ?_⟩
  · intro st extra hlist hflag rest
    have hfind : find_command st.cmd_list (some "end") = .ok (some end_cmd) := by
      rw [hlist]
      show find_command ([help_cmd, end_cmd] ++ extra) (some "end") = .ok (some end_cmd)
      simp only [List.cons_append, List.nil_append, find_command]
      rw [if_neg (by decide), if_pos (by decide)]
    have hd := dispatch_found st "end" "end" end_cmd (by decide) rfl hfind
    rw [if_neg (by decide), if_neg (by decide)] at hd
    have hstep : dispatchLine st "end" =
        .ok ({ st with end_parsing := 1, count := st.count + 1 },
          .invoked "end" ((tokenize "end").tail.take MAX_ARGC) 1) := hd
    simp only [runLines, if_pos hflag, hstep]
    exact runLines_stopped rest (by simp)
  · intro d hd c hmem hfn
    simp [scp_init, hd] at hmem
    rw [hmem] at hfn
    simp [help_cmd] at hfn
  · intro st st' lines hne hflag hrun
    exact (runLines_preserves lines st st' hne hflag hrun).1

/-- Witness for C4 at concrete inputs: entering `end` right after
`scp_init(0)` stops the loop with the flag set, and a `help` line against a
registry without the end command leaves the flag clear. -/
theorem C4_witness :
    runLines st0 ["end"] =
      .ok { st0 with end_parsing := 1, count := st0.count + 1 } ∧
    ({ cmd_list := [help_cmd], end_parsing := 0, count := 2 } : ParseState).end_parsing = 0 := by
  constructor
  · exact C4_end_termination.2.1 st0 [] (by simp [st0]) rfl []
  · exact C4_end_termination.2.2.2
      { cmd_list := [help_cmd], end_parsing := 0, count := 1 }
      { cmd_list := [help_cmd], end_parsing := 0, count := 2 }
      ["help"]
      (by intro c hc; simp at hc; rw [hc]; simp [help_cmd])
      rfl rfl

end SCP

namespace SCP

/-- Full unfolding of `scp_add_command` on non-NULL arguments: the asserts
fire in source order, otherwise the descriptor is appended. -/
theorem scp_add_eq (cmds : List Command) (name abbr help : String)
    (mi ma : Int) (f : CmdFunc) :
    scp_add_command cmds (some name) (some abbr) (some help) mi ma (some f) =
      if cmds.isEmpty = true then .error (.assertFail "cmd_list.head")
      else if mi ≤ ma then
        (if name.length < MAX_CMD_STR then
          (if abbr.length < MAX_ABBR_STR then
            (if help.length < MAX_HELP_STR then
              .ok (cmds ++ [{ cmd_str := name, abbr_str := some abbr,
                              help_str := help, min_arg := mi, max_arg := ma,
                              func := f }])
             else .error (.assertFail "strlen(help_str) < MAX_HELP_STR"))
           else .error (.assertFail "strlen(abbr_str) < MAX_ABBR_STR"))
         else .error (.assertFail "strlen(cmd_str) < MAX_CMD_STR"))
      else .error (.assertFail "min_arg <= max_arg") := by
  by_cases h0 : cmds.isEmpty
  · simp [scp_add_command, cAssert, h0, Bind.bind, Except.bind]
  · by_cases h1 : mi ≤ ma
    · by_cases h2 : name.length < MAX_CMD_STR
      · by_cases h3 : abbr.length < MAX_ABBR_STR
        · by_cases h4 : help.length < MAX_HELP_STR
          · simp [scp_add_command, cAssert, strlen, h0, h1, h2, h3, h4,
              Bind.bind, Except.bind]
          · simp [scp_add_command, cAssert, strlen, h0, h1, h2, h3, h4,
              Bind.bind, Except.bind]
        · simp [scp_add_command, cAssert, strlen, h0, h1, h2, h3,
            Bind.bind, Except.bind]
      · simp [scp_add_command, cAssert, strlen, h0, h1, h2,
          Bind.bind, Except.bind]
    · simp [scp_add_command, cAssert, strlen, h0, h1, Bind.bind, Except.bind]

/-- C5 counterexample: a call whose name (1 character) and help text
(3 characters) are within their limits and whose `min_arg <= max_arg`, yet
an assertion fires — the one on the abbreviation length (6 characters,
limit `MAX_ABBR_STR = 5`), which the claim does not account for.  So it is
not true that every such call registers the command without a failed
assertion. -/
theorem C5_counterexample :
    scp_add_command (scp_init 0) (some "x") (some "abcdef") (some "Hi.") 0 0
      (some f0) = .error (.assertFail "strlen(abbr_str) < MAX_ABBR_STR") := rfl

/-- C5 amended: `scp_add_command` fails by assertion whenever the name or
the help text exceeds its length limit or `min_arg > max_arg`; and a call
on an initialised parser whose name, abbreviation and help text are all
non-NULL and within their limits (the abbreviation limit `MAX_ABBR_STR`
being the condition the original claim omitted) with `min_arg <= max_arg`
fires no assertion and appends the command. -/
theorem C5_amended :
    (∀ cmds : List Command, ∀ name abbr help : String, ∀ mi ma : Int,
      ∀ f : CmdFunc,
      (MAX_CMD_STR ≤ name.length ∨ MAX_HELP_STR ≤ help.length ∨ ma < mi) →
      isAssertFail (scp_add_command cmds (some name) (some abbr) (some help)
        mi ma (some f)) = true) ∧
    (∀ cmds : List Command, ∀ name abbr help : String, ∀ mi ma : Int,
      ∀ f : CmdFunc,
      ¬ cmds.isEmpty = true → name.length < MAX_CMD_STR →
      abbr.length < MAX_ABBR_STR → help.length < MAX_HELP_STR → mi ≤ ma →
      scp_add_command cmds (some name) (some abbr) (some help) mi ma (some f)
        = .ok (cmds ++ [{ cmd_str := name, abbr_str := some abbr,
                          help_str := help, min_arg := mi, max_arg := ma,
                          func := f }])) := by
  constructor
  · intro cmds name abbr help mi ma f h
    rw [scp_add_eq]
    split_ifs with e1 e2 e3 e4 e5
    · rfl
    · rcases h with h | h | h
      · exact absurd e3 (by omega)
      · exact absurd e5 (by omega)
      · exact absurd e2 (by omega)
    · rfl
    · rfl
    · rfl
    · rfl
  · intro cmds name abbr help mi ma f h0 h2 h3 h4 h1
    rw [scp_add_eq, if_neg h0, if_pos h1, if_pos h2, if_pos h3, if_pos h4]

/-- Witness for C5 at concrete inputs: a 13-character name makes an
assertion fire, and a fully valid registration appends the descriptor. -/
theorem C5_witness :
    isAssertFail (scp_add_command [help_cmd, end_cmd] (some "averylongname")
      (some "a") (some "Hi.") 0 0 (some f0)) = true ∧
    scp_add_command [help_cmd, end_cmd] (some "add") (some "a")
      (some "Adds integers.") 2 5 (some f0)
      = .ok ([help_cmd, end_cmd] ++ [{ cmd_str := "add", abbr_str := some "a",
                                       help_str := "Adds integers.",
                                       min_arg := 2, max_arg := 5,
                                       func := f0 }]) := by
  constructor
  · exact C5_amended.1 [help_cmd, end_cmd] "averylongname" "a" "Hi." 0 0 f0
      (Or.inl (by decide))
  · exact C5_amended.2 [help_cmd, end_cmd] "add" "a" "Adds integers." 2 5 f0
      (by decide) (by decide) (by decide) (by decide) (by decide)

/-- C8: the code evaluates `strlen(abbr_str)` inside an assertion even when
`abbr_str` is NULL, although its own comment (`abbr_str can be NULL`), the
header documentation and the NULL guard in `find_command` all promise that
a NULL abbreviation is supported: the call dies in `strlen(NULL)` instead
of registering the command.  Lookup itself does handle an absent
abbreviation: a descriptor without one is found by its full name and the
absent abbreviation never matches. -/
theorem C8_null_abbrev :
    scp_add_command (scp_init 0) (some "foo") none (some "Help text.") 0 0
      (some f0) = .error (.undefinedBehavior "strlen(NULL)") ∧
    find_command [help_cmd, noab_cmd] (some "noab") = .ok (some noab_cmd) ∧
    find_command [help_cmd, noab_cmd] (some "bogus") = .ok none := ⟨rfl, rfl, rfl⟩

/-- C2: evaluating `input` with a buffer of `len = 1` byte on the
keystrokes `a`, `b`, return.  The loop stores `a` at offset 0, advances,
then stores the next keystroke at offset 1 before testing `ptr < max`, and
finally writes the string terminator at offset 1 as well: the write log
contains offset 1 = `len`, one byte past `in_buffer + len - 1`, so the
function does not stop at a full buffer and writes outside the `len` bytes
of the caller's array (heeding neither the claim nor its own comment that
on a full buffer it "returns immediately"). -/
theorem C2_oob_write :
    input ['a', 'b', '\r'] 1
      = some (1, [(1, Char.ofNat 0), (1, 'b'), (0, 'a')]) ∧
    1 ∈ writeOffsets [(1, Char.ofNat 0), (1, 'b'), (0, 'a')] := by decide

end SCP

namespace SCP

/-- C9 counterexample: `seven_cmd` is registered with
`min_arg = 7 <= max_arg = 8` (valid for `scp_add_command`), so the claim
applies to it (`max_arg >= 6`); on a line with 7 argument tokens only 6 are
collected, and the dispatch reports too-few-arguments instead of handing
the handler the first 6 tokens. -/
theorem C9_counterexample :
    dispatchLine st9 "seven 1 2 3 4 5 6 7" =
      .ok ({ st9 with count := st9.count + 1 }, .tooFew "seven" 7) := rfl

/-- C9 amended: every handler invocation receives at most
`MAX_ARGC = 6` argument tokens; and for a command registered with
`min_arg <= 6 <= max_arg` (the lower bound being the condition the original
claim omitted), a line carrying more than 6 argument tokens is not reported
as too-many-arguments: the handler is invoked with exactly the first 6
tokens, the rest silently discarded. -/
theorem C9_amended :
    (∀ st st2 : ParseState, ∀ line : String, ∀ out : StepOutput,
      dispatchLine st line = .ok (st2, out) → (outArgs out).length ≤ MAX_ARGC) ∧
    (∀ st : ParseState, ∀ line t : String, ∀ cmd : Command,
      ¬ line.length = 0 → (tokenize line).head? = some t →
      find_command st.cmd_list (some t) = .ok (some cmd) →
      MAX_ARGC < (tokenize line).tail.length →
      cmd.min_arg ≤ (MAX_ARGC : Int) → (MAX_ARGC : Int) ≤ cmd.max_arg →
      dispatchLine st line =
        .ok ({ (applyFunc st cmd ((tokenize line).tail.take MAX_ARGC)).1 with
               count := (applyFunc st cmd ((tokenize line).tail.take MAX_ARGC)).1.count + 1 },
          .invoked cmd.cmd_str ((tokenize line).tail.take MAX_ARGC)
            (applyFunc st cmd ((tokenize line).tail.take MAX_ARGC)).2)) := by
  constructor
  · intro st st2 line out h
    by_cases hlen : line.length = 0
    · simp only [dispatchLine, if_pos hlen] at h
      injection h with hp
      injection hp with h1 h2
      rw [← h2]
      simp [outArgs]
    · simp only [dispatchLine, if_neg hlen] at h
      cases hfc : find_command st.cmd_list (tokenize line).head? with
      | error e => rw [hfc] at h; cases h
      | ok r =>
        rw [hfc] at h
        cases r with
        | none =>
          cases htok : (tokenize line).head? with
          | none => rw [htok] at h; cases h
          | some t =>
            rw [htok] at h
            injection h with hp
            injection hp with h1 h2
            rw [← h2]
            simp [outArgs]
        | some cmd =>
          simp only at h
          split at h
          · injection h with hp
            injection hp with h1 h2
            rw [← h2]
            simp [outArgs]
          · split at h
            · injection h with hp
              injection hp with h1 h2
              rw [← h2]
              simp [outArgs]
            · injection h with hp
              injection hp with h1 h2
              rw [← h2]
              simp only [outArgs, List.length_take]
              exact Nat.min_le_left _ _
  · intro st line t cmd hlen htok hfind hlong hmin hmax
    have hd := dispatch_found st line t cmd hlen htok hfind
    have hlen6 : ((tokenize line).tail.take MAX_ARGC).length = MAX_ARGC := by
      rw [List.length_take]
      exact min_eq_left (le_of_lt hlong)
    rw [hlen6] at hd
    rw [if_neg (not_lt.mpr hmin), if_neg (not_lt.mpr hmax)] at hd
    exact hd

/-- Witness for C9 at a concrete input: `big_cmd` accepts 0 to 10
arguments; a line with 7 argument tokens invokes its handler with the
first 6 tokens only (the handler, which returns its argument count,
returns 6). -/
theorem C9_witness :
    dispatchLine stBig "big 1 2 3 4 5 6 7" =
      .ok ({ stBig with count := stBig.count + 1 },
        .invoked "big" ["1", "2", "3", "4", "5", "6"] 6) ∧
    (outArgs (.invoked "big" ["1", "2", "3", "4", "5", "6"] 6)).length ≤ MAX_ARGC := by
  constructor
  · have h := C9_amended.2 stBig "big 1 2 3 4 5 6 7" "big" big_cmd (by decide) rfl
      rfl (by decide) (by decide) (by decide)
    exact h
  · exact C9_amended.1 stBig { stBig with count := stBig.count + 1 }
      "big 1 2 3 4 5 6 7" (.invoked "big" ["1", "2", "3", "4", "5", "6"] 6) rfl

/-- C10 counterexample: the line consisting of a single space has nonzero
length, so it passes the empty-line test, but `strtok` extracts no token:
the dispatch calls `find_command` with a NULL name and the very first
`strcmp(NULL, cmd_str)` of the lookup loop is undefined behaviour. -/
theorem C10_counterexample :
    dispatchLine st0 " " = .error (.undefinedBehavior "strcmp(NULL, cmd_str)") := rfl

/-- C10 amended: a non-empty line containing at least one character other
than the delimiters space, comma and period yields a non-NULL first token,
so `find_command` receives a non-NULL name and the dispatch step completes
without a fault; delimiter-only lines are exactly the ones that pass a NULL
token to `find_command`. -/
theorem C10_amended (st : ParseState) (line : String)
    (hne : ¬ line.length = 0)
    (hch : ∃ ch ∈ line.data, isDelim ch = false) :
    (∃ t, (tokenize line).head? = some t) ∧
    exceptOk (dispatchLine st line) = true := by
  have h1 : tokenize line ≠ [] := tokenize_ne_nil hch
  obtain ⟨t, ts, heq⟩ : ∃ t ts, tokenize line = t :: ts := by
    cases htl : tokenize line with
    | nil => exact absurd htl h1
    | cons a b => exact ⟨a, b, rfl⟩
  have htok : (tokenize line).head? = some t := by rw [heq]; rfl
  exact ⟨⟨t, htok⟩, dispatch_ok_of_token htok⟩

/-- Witness for C10 at a concrete input: the line consisting of a space,
the letter a and a space has a non-delimiter character, tokenizes to the
single token a, and dispatches without a fault (as an unknown command). -/
theorem C10_witness :
    (tokenize " a ").head? = some "a" ∧
    exceptOk (dispatchLine st0 " a ") = true := by
  have h := C10_amended st0 " a " (by decide) ⟨'a', by decide, by decide⟩
  exact ⟨rfl, h.2⟩

/-- C7 counterexample: with a 1-byte buffer, typing `a` fills the buffer;
the following backspace is stored at the out-of-bounds offset 1 and makes
the loop exit without erasing anything, so the stored contents after
keystrokes `a`, backspace, return are the string a, while typing return
alone stores the empty string — typing a character and erasing it is not
the identity once the buffer has filled up. -/
theorem C7_counterexample :
    (input ['a', BS, '\r'] 1).map (fun r => storedString r.1 r.2) = some ['a'] ∧
    (input ['\r'] 1).map (fun r => storedString r.1 r.2) = some [] := by decide

/-- C7 amended: as long as fewer than `len - 1` characters are stored after
the keystrokes `pre` (so that the ordinary character and the backspace are
both consumed with the buffer offset still below `len`), typing an
ordinary character followed by a backspace or DEL is the identity on the
final position and stored contents; and a backspace or DEL typed with no
character stored leaves the position unchanged at the start of the
buffer. -/
theorem C7_amended :
    (∀ len q : Nat, ∀ pre rest : List Char, ∀ log : List (Nat × Char),
      ∀ c bs : Char,
      inputLoop len pre 0 [] = .blocked q log →
      ¬ c = '\r' → ¬ c = '\n' → isBackspace c = false → isBackspace bs = true →
      q + 1 < len →
      absRes (inputLoop len (pre ++ c :: bs :: rest) 0 [])
        = absRes (inputLoop len (pre ++ rest) 0 [])) ∧
    (∀ len : Nat, ∀ rest : List Char, ∀ log : List (Nat × Char), ∀ bs : Char,
      isBackspace bs = true → 0 < len →
      absRes (inputLoop len (bs :: rest) 0 log)
        = absRes (inputLoop len rest 0 log)) := by
  constructor
  · intro len q pre rest log c bs hpre hc1 hc2 hc3 hbs hroom
    rw [inputLoop_append len pre (c :: bs :: rest) 0 [],
      inputLoop_append len pre rest 0 [], hpre]
    simp only [contLoop]
    rw [inputLoop_cancel len q log c bs rest hc1 hc2 hc3 hbs hroom]
    apply inputLoop_congr
    rw [storedString_cons_ge bs ((q, c) :: log) (by omega),
      storedString_cons_ge c log (le_refl q)]
  · intro len rest log bs hbs h0
    rw [inputLoop_step_bs0 len log bs rest h0 hbs]
    apply inputLoop_congr
    exact storedString_cons_ge bs log (le_refl 0)

/-- Witness for C7 at concrete inputs: in a 4-byte buffer, typing `h`, then
`x`, then backspace, then return stores the same string as typing `h` then
return; and a backspace as the very first keystroke of a 1-byte buffer
leaves the position at the start. -/
theorem C7_witness :
    absRes (inputLoop 4 (['h'] ++ 'x' :: BS :: ['\r']) 0 [])
      = absRes (inputLoop 4 (['h'] ++ ['\r']) 0 []) ∧
    absRes (inputLoop 1 (BS :: ['\r']) 0 []) = absRes (inputLoop 1 ['\r'] 0 []) := by
  constructor
  · exact C7_amended.1 4 1 ['h'] ['\r'] [(0, 'h')] 'x' BS (by decide) (by decide)
      (by decide) (by decide) (by decide) (by decide)
  · exact C7_amended.2 1 ['\r'] [] BS (by decide) (by decide)

end SCP
